import Mathlib

/-!
Verification of the Sysmon XML event-log analyzer (`src/event_parser.py`).

The development shallowly embeds the script's data model and pipeline:

* XML elements are modelled as rose trees carrying a qualified tag (ElementTree's
  `{namespace}localname` form), an attribute list, optional text, and children.
* `parse_event`, `to_sentence`, the `EVENT_DESCRIPTIONS` table, the pandas
  aggregation (`groupby(["event_id","description"]).size()` + `sort_values`)
  and the suspicious-image filter (`str.contains` with its default regex
  semantics) are translated from the source.
* pandas behaviour is modelled from its documented semantics: `pd.DataFrame([])`
  has no columns (so column access raises `KeyError`); `groupby` sorts group
  keys ascending and drops rows whose grouping key is null (`dropna=True`);
  `sort_values(ascending=False)` reverses an ascending argsort of the column
  (`nargsort`).  The default sort kind is not stable in general; it is a stable
  insertion sort on arrays of fewer than 16 elements, so the model (reverse of
  a stable ascending sort) is exact on small tables and universal theorems
  assert only tie-order-insensitive facts.
* The regex dot of `str.contains` matches any character except newline (`re`'s
  default flags); Python `str.lower` is modelled per character, exactly for
  ASCII strings, and filter/`re` correspondence statements are scoped to ASCII
  images.
-/

/-! ## XML document model (xml.etree.ElementTree) -/

/-- An XML element as seen through `xml.etree.ElementTree`: a qualified tag
(`\x7buri\x7dlocal` for namespaced elements), the attribute dictionary, the direct
text node, and the list of child elements in document order. -/
inductive XmlElem where
  | mk (tag : String) (attrib : List (String × String)) (text : Option String)
      (children : List XmlElem)

def XmlElem.tag : XmlElem → String
  | .mk t _ _ _ => t

def XmlElem.attrib : XmlElem → List (String × String)
  | .mk _ a _ _ => a

def XmlElem.text : XmlElem → Option String
  | .mk _ _ tx _ => tx

def XmlElem.children : XmlElem → List XmlElem
  | .mk _ _ _ cs => cs

/-- The Sysmon event namespace (the `NS` dictionary's single entry). -/
def sysmonNS : String := "http://schemas.microsoft.com/win/2004/08/events/event"

/-- ElementTree's qualified-name form `\x7buri\x7dlocal` for the Sysmon namespace,
as produced by a namespaced path lookup such as `find("ev:System", NS)`. -/
def qn (localName : String) : String := "\x7b" ++ sysmonNS ++ "\x7d" ++ localName

/-- Model of `elem.find("ev:X", NS)`: the first direct child with the qualified tag. -/
def findChild (e : XmlElem) (t : String) : Option XmlElem :=
  e.children.find? (fun c => c.tag == t)

/-- Model of `elem.findall("ev:X", NS)`: all direct children with the qualified tag,
in document order. -/
def findallChildren (e : XmlElem) (t : String) : List XmlElem :=
  e.children.filter (fun c => c.tag == t)

/-- Model of `elem.get(k)`: attribute lookup. -/
def attrGet (e : XmlElem) (k : String) : Option String :=
  (e.attrib.find? (fun p => p.1 == k)).map (·.2)

mutual
/-- All proper descendants of an element in document (preorder) order; the element
itself is not included.  This is the element set traversed by `findall(".//...")`. -/
def descendants : XmlElem → List XmlElem
  | .mk _ _ _ cs => descList cs

/-- Preorder traversal of a forest: each root followed by its descendants. -/
def descList : List XmlElem → List XmlElem
  | [] => []
  | c :: cs => c :: (descendants c ++ descList cs)
end

/-! ## Description table and resolution -/

/-- The `EVENT_DESCRIPTIONS` constant: simple English descriptions for common
Sysmon Event IDs. -/
def EVENT_DESCRIPTIONS : List (String × String) := [
  ("1", "Process created (a program started)"),
  ("2", "A process changed a file creation time"),
  ("3", "Network connection created"),
  ("4", "Sysmon service state changed"),
  ("5", "Process terminated (a program ended)"),
  ("6", "Driver loaded"),
  ("7", "Image (EXE/DLL) loaded"),
  ("8", "Remote thread created in another process"),
  ("9", "Raw disk access"),
  ("10", "Process accessed another process"),
  ("11", "File created on disk"),
  ("12", "Registry object created or deleted"),
  ("13", "Registry value set"),
  ("14", "Registry key/values renamed"),
  ("15", "File stream created"),
  ("22", "DNS query performed"),
  ("255", "Sysmon configuration change")]

/-- Model of `EVENT_DESCRIPTIONS.get(event_id, "Other Sysmon event")`: a Python
`dict.get` with a default.  The dictionary's keys are all strings, so a `None`
key (absent `event_id`) always falls through to the default. -/
def resolveDescription (code : Option String) : String :=
  match code with
  | none => "Other Sysmon event"
  | some c => ((EVENT_DESCRIPTIONS.find? (fun p => p.1 == c)).map (·.2)).getD
      "Other Sysmon event"

/-! ## Event records and field extraction -/

/-- The flat record produced by `parse_event` (the keys of the returned dict,
in insertion order: event_id, description, utc_time, image, process_id, computer). -/
structure EventRecord where
  event_id : Option String
  description : String
  utc_time : Option String
  image : Option String
  process_id : Option String
  computer : Option String
deriving DecidableEq

/-- One step of the `for d in data.findall("ev:Data", NS)` loop: the accumulator is
`(utc_time, image, proc_id)` and a `Data` child whose `Name` attribute is `UtcTime`,
`Image` or `ProcessId` overwrites the corresponding component with its text. -/
def dataStep (acc : Option String × Option String × Option String) (d : XmlElem) :
    Option String × Option String × Option String :=
  match attrGet d "Name" with
  | some "UtcTime" => (d.text, acc.2.1, acc.2.2)
  | some "Image" => (acc.1, d.text, acc.2.2)
  | some "ProcessId" => (acc.1, acc.2.1, d.text)
  | _ => acc

/-- Model of `parse_event`.  The Python expression
`system.find("ev:EventID", NS).text if system is not None else None` yields `None`
when `system` is absent, but raises `AttributeError` when `system` is present and
the `EventID` child is missing (`None.text`); same for `Computer`.  Errors are
modelled in `Except`. -/
def parse_event (ev : XmlElem) : Except String EventRecord := do
  let system := findChild ev (qn "System")
  let data := findChild ev (qn "EventData")
  let event_id ← match system with
    | none => pure none
    | some s =>
      match findChild s (qn "EventID") with
      | none => throw "AttributeError: NoneType object has no attribute text"
      | some el => pure el.text
  let computer ← match system with
    | none => pure none
    | some s =>
      match findChild s (qn "Computer") with
      | none => throw "AttributeError: NoneType object has no attribute text"
      | some el => pure el.text
  let fields :=
    match data with
    | none => ((none : Option String), (none : Option String), (none : Option String))
    | some d => (findallChildren d (qn "Data")).foldl dataStep (none, none, none)
  pure {
    event_id := event_id
    description := resolveDescription event_id
    utc_time := fields.1
    image := fields.2.1
    process_id := fields.2.2
    computer := computer }

/-- Model of `parsed = [parse_event(e) for e in events]`: the comprehension stops
with the exception of the first failing extraction. -/
def parseAll (events : List XmlElem) : Except String (List EventRecord) :=
  events.mapM parse_event

/-! ## Sentence rendering -/

/-- Python `str` formatting of an optional string inside an f-string: a missing
value prints as the literal `None`. -/
def pyStr : Option String → String
  | none => "None"
  | some s => s

/-- Model of `to_sentence`: the exact f-string template of the source. -/
def to_sentence (row : EventRecord) : String :=
  "At " ++ pyStr row.utc_time ++ ", on computer " ++ pyStr row.computer ++ ", " ++
    row.description ++ ": " ++ pyStr row.image ++
    " (process ID " ++ pyStr row.process_id ++ ")."

/-! ## DataFrame model -/

/-- The column labels of `pd.DataFrame(parsed)` for a nonempty record list: the
dict keys in insertion order. -/
def recordColumns : List String :=
  ["event_id", "description", "utc_time", "image", "process_id", "computer"]

/-- A pandas DataFrame, restricted to what the script builds: column labels and
rows.  Only the presence of column labels matters for the modelled operations. -/
structure DataFrame where
  columns : List String
  rows : List EventRecord

/-- Model of `pd.DataFrame(parsed)`: the columns are the union of the row dicts'
keys, so an empty record list yields a DataFrame with no columns at all. -/
def toDataFrame (parsed : List EventRecord) : DataFrame :=
  { columns := if parsed.isEmpty then [] else recordColumns, rows := parsed }

/-! ## Aggregation (`groupby(["event_id","description"]).size()` + `sort_values`) -/

/-- One row of the aggregate table `counts`: `(event_id, description, count)`. -/
structure EventTypeCount where
  event_id : String
  description : String
  count : Nat
deriving DecidableEq

/-- The grouping key of an aggregate row. -/
def EventTypeCount.key (e : EventTypeCount) : String × String :=
  (e.event_id, e.description)

/-- The grouping keys of a record sequence: `groupby` with the default
`dropna=True` drops every row whose `event_id` is null (`description` is never
null), so only records with a present `event_id` contribute. -/
def keyList (rows : List EventRecord) : List (String × String) :=
  rows.filterMap fun r => r.event_id.map fun i => (i, r.description)

/-- Non-strict code-point lexicographic comparison of character lists, the order
Python uses to compare strings. -/
def charListLe : List Char → List Char → Bool
  | [], _ => true
  | _ :: _, [] => false
  | a :: as, b :: bs => if a < b then true else if b < a then false else charListLe as bs

/-- Strict code-point lexicographic comparison of character lists. -/
def charListLt : List Char → List Char → Bool
  | [], [] => false
  | [], _ :: _ => true
  | _ :: _, [] => false
  | a :: as, b :: bs => if a < b then true else if b < a then false else charListLt as bs

/-- Python `s1 <= s2` on strings. -/
def strLe (a b : String) : Prop := charListLe a.data b.data = true

/-- Python `s1 < s2` on strings. -/
def strLt (a b : String) : Prop := charListLt a.data b.data = true

instance : DecidableRel strLe := fun a b => by unfold strLe; infer_instance

instance : DecidableRel strLt := fun a b => by unfold strLt; infer_instance

/-- Ascending lexicographic order on grouping keys, as used by `groupby`'s
default `sort=True` (Python tuple comparison of strings by code point). -/
def keyLE (a b : String × String) : Prop :=
  strLt a.1 b.1 ∨ (a.1 = b.1 ∧ strLe a.2 b.2)

/-- Strict ascending lexicographic order on grouping keys. -/
def keyLT (a b : String × String) : Prop :=
  strLt a.1 b.1 ∨ (a.1 = b.1 ∧ strLt a.2 b.2)

instance : DecidableRel keyLE := fun a b => by unfold keyLE; infer_instance

instance : DecidableRel keyLT := fun a b => by unfold keyLT; infer_instance

/-- Number of occurrences of a value in a list (the size of its `groupby` group). -/
def countKey {K : Type} [DecidableEq K] (l : List K) (k : K) : Nat :=
  (l.filter fun x => decide (x = k)).length

/-- Model of `df.groupby(["event_id","description"]).size().reset_index(name="count")`:
one row per distinct non-null grouping key, keys sorted ascending, each with its
group size. -/
def groupSizes (rows : List EventRecord) : List EventTypeCount :=
  (List.insertionSort keyLE (keyList rows).dedup).map fun k =>
    { event_id := k.1, description := k.2, count := countKey (keyList rows) k }

/-- Comparison used by `sort_values("count")`: only the count column is compared. -/
def cntLE (a b : EventTypeCount) : Prop := a.count ≤ b.count

instance : DecidableRel cntLE := fun a b => by unfold cntLE; infer_instance

/-- Model of `sort_values("count", ascending=False)`: pandas' `nargsort` computes
an ascending argsort of the column and reverses it for descending order.  The
default sort kind (quicksort/introsort) is not documented to be stable, so the
order among equal counts is not a program guarantee in general; on arrays of
fewer than 16 elements numpy uses a stable insertion sort, so this model — the
reverse of a stable ascending sort — is exact for such small tables (every
concrete table in this development).  Claim theorems rely on the modelled tie
order only at concrete small tables; universal statements assert only
tie-order-insensitive facts (membership, counts, non-increasing order). -/
def sort_values_count_desc (l : List EventTypeCount) : List EventTypeCount :=
  (List.insertionSort cntLE l).reverse

/-- The `counts` table of the script, including the pandas column-lookup failure:
`groupby` on a missing column label raises `KeyError`, which is what happens for
the column-less DataFrame built from an empty record list. -/
def countsOf (df : DataFrame) : Except String (List EventTypeCount) :=
  if "event_id" ∈ df.columns then
    if "description" ∈ df.columns then
      .ok (sort_values_count_desc (groupSizes df.rows))
    else .error "KeyError: description"
  else .error "KeyError: event_id"

/-! ## Suspicious-event filter -/

/-- The `suspicious_images` constant. -/
def suspicious_images : List String :=
  ["cmd.exe", "powershell.exe", "pwsh.exe", "wmic.exe", "rundll32.exe", "regsvr32.exe"]

/-- Python `str.lower`, modelled per character: `Char.toLower` lowercases exactly
the ASCII letters `A`-`Z`, so this agrees with Python's `str.lower()` precisely on
ASCII strings.  Python's full Unicode case mapping (which can even change the
string length) is not modelled; statements comparing the filter with `re`
semantics are therefore scoped to ASCII images. -/
def pyLower (s : String) : String := String.mk (s.data.map Char.toLower)

/-- Does a regex pattern consisting of literal characters and the metacharacter
`.` match a prefix of the text?  The joined pattern
`"cmd.exe|powershell.exe|..."` is passed to `str.contains`, whose default is
`regex=True`, so each `.` in the binary names is a wildcard; with `re`'s default
flags the dot matches any single character except the newline. -/
def patMatchAt : List Char → List Char → Bool
  | [], _ => true
  | _ :: _, [] => false
  | p :: ps, c :: cs => (if p == '.' then c != '\n' else p == c) && patMatchAt ps cs

/-- Does the dot-wildcard pattern match anywhere in the text (`re.search`)? -/
def patSearch (p : List Char) : List Char → Bool
  | [] => patMatchAt p []
  | c :: cs => patMatchAt p (c :: cs) || patSearch p cs

/-- Model of `str.contains("cmd.exe|powershell.exe|...", regex default)`: some
alternative of the joined pattern matches somewhere in the string. -/
def regexAnySearch (pats : List String) (s : String) : Bool :=
  pats.any fun pat => patSearch pat.toList s.toList

/-- The boolean mask `df["image"].notna() & df["image"].str.lower().str.contains(...)`:
a null image gives `False` (`notna` fails), otherwise the lower-cased image is
regex-searched. -/
def suspMask (r : EventRecord) : Bool :=
  match r.image with
  | none => false
  | some s => regexAnySearch suspicious_images (pyLower s)

/-- The `interesting` selection of the script: boolean-mask row filtering, which
preserves row order.  Accessing column `image` on a column-less DataFrame raises
`KeyError`. -/
def interestingOf (df : DataFrame) : Except String (List EventRecord) :=
  if "image" ∈ df.columns then .ok (df.rows.filter suspMask)
  else .error "KeyError: image"

/-- Does the pattern occur at the start of the text as a literal substring
(every character compared literally, including `.`)? -/
def litMatchAt : List Char → List Char → Bool
  | [], _ => true
  | _ :: _, [] => false
  | p :: ps, c :: cs => (p == c) && litMatchAt ps cs

/-- Does the pattern occur anywhere in the text as a literal substring? -/
def litSearch (p : List Char) : List Char → Bool
  | [] => litMatchAt p []
  | c :: cs => litMatchAt p (c :: cs) || litSearch p cs

/-- Claim-side predicate following the specification's words (§4.6): the record's
image is present and its lower-cased value contains one of the suspicious names
as a literal substring.  Kept separate from the code-side `suspMask` so the two
can be compared. -/
def literalSelected (r : EventRecord) : Bool :=
  match r.image with
  | none => false
  | some s => suspicious_images.any fun p => litSearch p.toList (pyLower s).toList

/-- Declarative reading of one regex-pattern character against one text
character: the metacharacter `.` matches any character except the newline
(`re`'s default dot), and every other character matches only itself. -/
def charMatches (pc sc : Char) : Prop :=
  if pc = '.' then sc ≠ '\n' else pc = sc

/-- The string consists of ASCII characters only.  On such strings the modelled
`pyLower` coincides exactly with Python's `str.lower()`. -/
def asciiOnly (s : String) : Prop := ∀ c ∈ s.data, c.toNat ≤ 127

instance (s : String) : Decidable (asciiOnly s) := by unfold asciiOnly; infer_instance

/-! ## Loader -/

/-- Outcome of opening and parsing the input path, as an abstract environment. -/
inductive XmlSource where
  | missing
  | malformed
  | wellFormed (root : XmlElem)

/-- The two load-time failures of §4.1/§7. -/
inductive LoadError where
  | NotFoundError
  | MalformedInputError
deriving DecidableEq

/-- Modelled from the spec: `xml.etree.ElementTree.parse` together with the file
open is Python standard-library code, not part of this repository.  Per §4.1 and
§7 it fails with a not-found error when the path does not exist, fails with a
malformed-input error when the file is not well-formed XML, and otherwise yields
the document's root element. -/
def parseXmlFile : XmlSource → Except LoadError XmlElem
  | .missing => .error .NotFoundError
  | .malformed => .error .MalformedInputError
  | .wellFormed root => .ok root

/-- Model of `load_sysmon_events`: parse the file and return
`root.findall(".//ev:Event", NS)` — every proper descendant of the root whose
qualified tag is the namespaced `Event` tag, in document order.  The XPath `.//`
selects subelements only, never the root element itself. -/
def load_sysmon_events (src : XmlSource) : Except LoadError (List XmlElem) :=
  match parseXmlFile src with
  | .error e => .error e
  | .ok root => .ok ((descendants root).filter fun e => e.tag == qn "Event")

/-! ## Concrete inputs used by the claims -/

/-- The `System` element of the round-trip scenario. -/
def sampleSystem : XmlElem :=
  .mk (qn "System") [] none
    [.mk (qn "EventID") [] (some "1") [],
     .mk (qn "Computer") [] (some "HOST1") []]

/-- The `EventData` element of the round-trip scenario. -/
def sampleData : XmlElem :=
  .mk (qn "EventData") [] none
    [.mk (qn "Data") [("Name", "UtcTime")] (some "2024-01-01T00:00:00Z") [],
     .mk (qn "Data") [("Name", "Image")] (some "C:\\Windows\\System32\\cmd.exe") [],
     .mk (qn "Data") [("Name", "ProcessId")] (some "1234") []]

/-- The single `Event` of the round-trip scenario. -/
def sampleEvent : XmlElem := .mk (qn "Event") [] none [sampleSystem, sampleData]

/-- A document whose root contains exactly the round-trip event. -/
def sampleRoot : XmlElem := .mk "Events" [] none [sampleEvent]

/-- The record extracted from `sampleEvent`. -/
def sampleRecord : EventRecord :=
  { event_id := some "1"
    description := "Process created (a program started)"
    utc_time := some "2024-01-01T00:00:00Z"
    image := some "C:\\Windows\\System32\\cmd.exe"
    process_id := some "1234"
    computer := some "HOST1" }

/-- An event whose `System` child is present but has no `EventID` child. -/
def eventNoEventID : XmlElem :=
  .mk (qn "Event") [] none
    [.mk (qn "System") [] none [.mk (qn "Computer") [] (some "HOST1") []]]

/-- An event with neither a `System` nor an `EventData` child. -/
def eventBare : XmlElem := .mk (qn "Event") [] none []

/-- A record whose `event_id` is absent (as produced for an event without a
`System` child). -/
def noIdRecord : EventRecord :=
  { event_id := none, description := "Other Sysmon event", utc_time := none
    image := none, process_id := none, computer := none }

/-- A record whose image matches the `cmd.exe` regex only through the `.`
wildcard: `c:\cmdxexe` contains no literal `cmd.exe`. -/
def cmdXRecord : EventRecord :=
  { event_id := some "1", description := "Process created (a program started)"
    utc_time := none, image := some "C:\\cmdXexe", process_id := none
    computer := none }

/-- A record with event id `1`, used for tie-order scenarios. -/
def tieRecord1 : EventRecord :=
  { event_id := some "1", description := "Process created (a program started)"
    utc_time := none, image := none, process_id := none, computer := none }

/-- A record with event id `3`, used for tie-order scenarios. -/
def tieRecord3 : EventRecord :=
  { event_id := some "3", description := "Network connection created"
    utc_time := none, image := none, process_id := none, computer := none }

/-- A document root tagged `Event` in the Sysmon namespace with no children. -/
def bareEventRoot : XmlElem := .mk (qn "Event") [] none []

/-- A document root with no `Event` descendants at all. -/
def emptyRoot : XmlElem := .mk "Events" [] none []

/-- A `Data` element with an optional `Name` attribute and optional text, used to
quantify over `EventData` contents. -/
def mkData (p : Option String × Option String) : XmlElem :=
  XmlElem.mk (qn "Data")
    (match p.1 with
     | none => []
     | some s => [("Name", s)]) p.2 []

/-- An `Event` element with no `System` child whose `EventData` holds the given
`(Name attribute, text)` `Data` children, in order. -/
def eventWithData (pairs : List (Option String × Option String)) : XmlElem :=
  .mk (qn "Event") [] none [.mk (qn "EventData") [] none (pairs.map mkData)]

/-- The text of the last `Data` child (in document order) whose `Name` attribute
equals the given name; absent when there is no such child or when the last such
child has no text. -/
def lastNamed (name : String) (pairs : List (Option String × Option String)) :
    Option String :=
  match (pairs.filter fun p => decide (p.1 = some name)).getLast? with
  | some q => q.2
  | none => none

/-- Fold-style accumulator description of the overwrite loop: the text of the
last matching `Data` child, defaulting to the accumulator component. -/
def lastNamedD (name : String) (pairs : List (Option String × Option String))
    (dflt : Option String) : Option String :=
  match pairs with
  | [] => dflt
  | p :: ps => lastNamedD name ps (if p.1 = some name then p.2 else dflt)

/-- Ordering invariant of the aggregate table before reversal: counts ascend, and
equal counts keep the grouping (ascending-key) order. -/
def entBelow (a b : EventTypeCount) : Prop :=
  a.count ≤ b.count ∧ (a.count = b.count → keyLT a.key b.key)

/-! ## Order infrastructure for the modelled pandas sorts -/

theorem charListLe_refl : ∀ as : List Char, charListLe as as = true
  | [] => rfl
  | a :: as => by simp [charListLe, lt_irrefl, charListLe_refl as]

theorem charListLe_total : ∀ as bs : List Char,
    charListLe as bs = true ∨ charListLe bs as = true
  | [], _ => Or.inl rfl
  | _ :: _, [] => Or.inr rfl
  | a :: as, b :: bs => by
    rcases lt_trichotomy a b with h | h | h
    · left; simp [charListLe, h]
    · subst h
      rcases charListLe_total as bs with ih | ih
      · left; simp [charListLe, lt_irrefl, ih]
      · right; simp [charListLe, lt_irrefl, ih]
    · right; simp [charListLe, h]

theorem charListLe_trans : ∀ {as bs cs : List Char},
    charListLe as bs = true → charListLe bs cs = true → charListLe as cs = true
  | [], _, _, _, _ => rfl
  | _ :: _, [], _, h, _ => by simp [charListLe] at h
  | _ :: _, _ :: _, [], _, h => by simp [charListLe] at h
  | a :: as, b :: bs, c :: cs, h1, h2 => by
    by_cases hab : a < b
    · by_cases hbc : b < c
      · simp [charListLe, lt_trans hab hbc]
      · by_cases hcb : c < b
        · simp [charListLe, hbc, hcb] at h2
        · have : b = c := le_antisymm (not_lt.mp hcb) (not_lt.mp hbc)
          subst this
          simp [charListLe, hab]
    · by_cases hba : b < a
      · simp [charListLe, hab, hba] at h1
      · have : a = b := le_antisymm (not_lt.mp hba) (not_lt.mp hab)
        subst this
        by_cases hac : a < c
        · simp [charListLe, hac]
        · by_cases hca : c < a
          · simp [charListLe, hca, hac] at h2
          · have : a = c := le_antisymm (not_lt.mp hca) (not_lt.mp hac)
            subst this
            simp [charListLe, lt_irrefl] at h1 h2 ⊢
            exact charListLe_trans h1 h2

theorem charListLe_antisymm : ∀ {as bs : List Char},
    charListLe as bs = true → charListLe bs as = true → as = bs
  | [], [], _, _ => rfl
  | [], _ :: _, _, h => by simp [charListLe] at h
  | _ :: _, [], h, _ => by simp [charListLe] at h
  | a :: as, b :: bs, h1, h2 => by
    by_cases hab : a < b
    · simp [charListLe, lt_asymm hab, hab] at h2
    · by_cases hba : b < a
      · simp [charListLe, hab, hba] at h1
      · have : a = b := le_antisymm (not_lt.mp hba) (not_lt.mp hab)
        subst this
        simp [charListLe, lt_irrefl] at h1 h2
        rw [charListLe_antisymm h1 h2]

theorem charListLt_iff : ∀ as bs : List Char,
    charListLt as bs = true ↔ (charListLe as bs = true ∧ as ≠ bs)
  | [], [] => by simp [charListLt]
  | [], _ :: _ => by simp [charListLt, charListLe]
  | _ :: _, [] => by simp [charListLt, charListLe]
  | a :: as, b :: bs => by
    by_cases hab : a < b
    · have hlt : charListLt (a :: as) (b :: bs) = true := by simp [charListLt, hab]
      have hle : charListLe (a :: as) (b :: bs) = true := by simp [charListLe, hab]
      have hne : a :: as ≠ b :: bs := by
        intro hc
        injection hc with h1 _
        exact absurd (h1 ▸ hab) (lt_irrefl b)
      simp [hlt, hle, hne]
    · by_cases hba : b < a
      · simp [charListLt, charListLe, hab, hba]
      · have : a = b := le_antisymm (not_lt.mp hba) (not_lt.mp hab)
        subst this
        simp only [charListLt, charListLe, if_neg hab, if_neg hba]
        rw [charListLt_iff as bs]
        simp

theorem strLe_refl (a : String) : strLe a a := charListLe_refl _

theorem strLe_total (a b : String) : strLe a b ∨ strLe b a := charListLe_total _ _

theorem strLe_trans {a b c : String} : strLe a b → strLe b c → strLe a c :=
  charListLe_trans

theorem strLe_antisymm {a b : String} : strLe a b → strLe b a → a = b := by
  intro h1 h2
  cases a; cases b
  exact congrArg String.mk (charListLe_antisymm h1 h2)

theorem strLt_iff {a b : String} : strLt a b ↔ (strLe a b ∧ a ≠ b) := by
  unfold strLt strLe
  rw [charListLt_iff]
  constructor
  · rintro ⟨h1, h2⟩
    exact ⟨h1, fun hc => h2 (congrArg String.data hc)⟩
  · rintro ⟨h1, h2⟩
    refine ⟨h1, fun hc => h2 ?_⟩
    cases a; cases b
    exact congrArg String.mk hc

theorem strLt_trans {a b c : String} : strLt a b → strLt b c → strLt a c := by
  rw [strLt_iff, strLt_iff, strLt_iff]
  rintro ⟨h1, n1⟩ ⟨h2, n2⟩
  refine ⟨strLe_trans h1 h2, ?_⟩
  rintro rfl
  exact n1 (strLe_antisymm h1 h2)

instance : IsTotal (String × String) keyLE := by
  constructor
  intro a b
  by_cases he : a.1 = b.1
  · rcases strLe_total a.2 b.2 with h2 | h2
    · exact Or.inl (Or.inr ⟨he, h2⟩)
    · exact Or.inr (Or.inr ⟨he.symm, h2⟩)
  · rcases strLe_total a.1 b.1 with h1 | h1
    · exact Or.inl (Or.inl (strLt_iff.mpr ⟨h1, he⟩))
    · exact Or.inr (Or.inl (strLt_iff.mpr ⟨h1, Ne.symm he⟩))

instance : IsTrans (String × String) keyLE := by
  constructor
  rintro a b c (h1 | ⟨e1, l1⟩) (h2 | ⟨e2, l2⟩)
  · exact Or.inl (strLt_trans h1 h2)
  · exact Or.inl (by rw [← e2]; exact h1)
  · exact Or.inl (by rw [e1]; exact h2)
  · exact Or.inr ⟨e1.trans e2, strLe_trans l1 l2⟩

theorem keyLT_of_keyLE_ne {a b : String × String} (h : keyLE a b) (hne : a ≠ b) :
    keyLT a b := by
  rcases h with h | ⟨he, hl⟩
  · exact Or.inl h
  · right
    refine ⟨he, strLt_iff.mpr ⟨hl, fun h2 => hne (Prod.ext he h2)⟩⟩

instance : IsTotal EventTypeCount cntLE := ⟨fun a b => Nat.le_total a.count b.count⟩

instance : IsTrans EventTypeCount cntLE := ⟨fun _ _ _ => Nat.le_trans⟩

theorem orderedInsert_entBelow : ∀ (a : EventTypeCount) (l : List EventTypeCount),
    l.Pairwise entBelow → (∀ x ∈ l, keyLT a.key x.key) →
    (List.orderedInsert cntLE a l).Pairwise entBelow
  | _, [], _, _ => List.pairwise_singleton _ _
  | a, b :: t, hp, ha => by
    rcases List.pairwise_cons.mp hp with ⟨hb, ht⟩
    by_cases hab : cntLE a b
    · rw [List.orderedInsert_of_le cntLE t hab]
      refine List.pairwise_cons.mpr ⟨?_, hp⟩
      intro y hy
      rcases List.mem_cons.mp hy with rfl | hyt
      · exact ⟨hab, fun _ => ha _ (List.mem_cons_self _ _)⟩
      · exact ⟨Nat.le_trans hab (hb y hyt).1, fun _ => ha _ (List.mem_cons.mpr (Or.inr hyt))⟩
    · have hba : b.count < a.count := Nat.not_le.mp hab
      have hins : List.orderedInsert cntLE a (b :: t) = b :: List.orderedInsert cntLE a t := by
        simp [List.orderedInsert, hab]
      rw [hins]
      refine List.pairwise_cons.mpr ⟨?_, ?_⟩
      · intro y hy
        rcases (List.mem_orderedInsert cntLE).mp hy with rfl | hyt
        · exact ⟨Nat.le_of_lt hba, fun hh => absurd hh (Nat.ne_of_lt hba)⟩
        · exact hb y hyt
      · exact orderedInsert_entBelow a t ht fun x hx => ha x (List.mem_cons.mpr (Or.inr hx))

theorem insertionSort_entBelow : ∀ l : List EventTypeCount,
    l.Pairwise (fun a b => keyLT a.key b.key) →
    (List.insertionSort cntLE l).Pairwise entBelow
  | [], _ => List.Pairwise.nil
  | a :: t, h => by
    rcases List.pairwise_cons.mp h with ⟨ha, ht⟩
    simp only [List.insertionSort]
    exact orderedInsert_entBelow a _ (insertionSort_entBelow t ht)
      fun x hx => ha x ((List.mem_insertionSort cntLE).mp hx)

/-! ## Counting lemmas for the aggregation -/

theorem countKey_cons {K : Type} [DecidableEq K] (a : K) (t : List K) (k : K) :
    countKey (a :: t) k = countKey t k + if a = k then 1 else 0 := by
  by_cases h : a = k <;> simp [countKey, List.filter_cons, h]

theorem countKey_eq_zero {K : Type} [DecidableEq K] {t : List K} {k : K} (h : k ∉ t) :
    countKey t k = 0 := by
  induction t with
  | nil => rfl
  | cons a t ih =>
    have hak : ¬ a = k := fun hc => h (hc ▸ List.mem_cons_self a t)
    rw [countKey_cons, ih fun hc => h (List.mem_cons.mpr (Or.inr hc))]
    simp [hak]

theorem sum_map_add {K : Type} (d : List K) (f g : K → Nat) :
    (d.map fun k => f k + g k).sum = (d.map f).sum + (d.map g).sum := by
  induction d with
  | nil => rfl
  | cons a d ih => simp [ih]; omega

theorem sum_ite_eq_zero {K : Type} [DecidableEq K] {d : List K} {a : K} (h : a ∉ d) :
    (d.map fun k => if a = k then 1 else 0).sum = 0 := by
  induction d with
  | nil => rfl
  | cons b d ih =>
    have hab : ¬ a = b := fun hc => h (hc ▸ List.mem_cons_self b d)
    simp [hab, ih fun hc => h (List.mem_cons.mpr (Or.inr hc))]

theorem sum_ite_single {K : Type} [DecidableEq K] {d : List K} {a : K}
    (hn : d.Nodup) (hm : a ∈ d) :
    (d.map fun k => if a = k then 1 else 0).sum = 1 := by
  induction d with
  | nil => cases hm
  | cons b d ih =>
    rcases List.mem_cons.mp hm with rfl | hm'
    · have : a ∉ d := (List.nodup_cons.mp hn).1
      simp [sum_ite_eq_zero this]
    · have hab : ¬ a = b := by
        intro hc
        subst hc
        exact (List.nodup_cons.mp hn).1 hm'
      simp [hab, ih (List.nodup_cons.mp hn).2 hm']

theorem sum_countKey_dedup {K : Type} [DecidableEq K] (l : List K) :
    (l.dedup.map (countKey l)).sum = l.length := by
  induction l with
  | nil => rfl
  | cons a t ih =>
    have hfun : countKey (a :: t) = fun k => countKey t k + if a = k then 1 else 0 :=
      funext fun k => countKey_cons a t k
    rw [hfun]
    by_cases h : a ∈ t
    · rw [List.dedup_cons_of_mem h, sum_map_add, ih,
        sum_ite_single (List.nodup_dedup t) (List.mem_dedup.mpr h)]
      simp
    · rw [List.dedup_cons_of_not_mem h]
      simp only [List.map_cons, List.sum_cons]
      rw [sum_map_add, ih, countKey_eq_zero h, sum_ite_eq_zero fun hc => h (List.mem_dedup.mp hc)]
      simp [Nat.add_comm]

theorem keyList_length (rows : List EventRecord) :
    (keyList rows).length = (rows.filter fun r => r.event_id.isSome).length := by
  induction rows with
  | nil => rfl
  | cons r t ih =>
    simp only [keyList] at ih ⊢
    cases h : r.event_id with
    | none => simp [List.filterMap_cons, List.filter_cons, h, ih]
    | some i => simp [List.filterMap_cons, List.filter_cons, h, ih]

/-! ## Aggregation-table structure lemmas -/

theorem sortedKeys_pairwise_keyLT (ks : List (String × String)) :
    (List.insertionSort keyLE ks.dedup).Pairwise keyLT := by
  have hs : (List.insertionSort keyLE ks.dedup).Pairwise keyLE :=
    List.sorted_insertionSort keyLE ks.dedup
  have hn : (List.insertionSort keyLE ks.dedup).Nodup :=
    ((List.perm_insertionSort keyLE ks.dedup).nodup_iff).mpr (List.nodup_dedup ks)
  exact (hs.and hn).imp fun h => keyLT_of_keyLE_ne h.1 h.2

theorem groupSizes_pairwise_keyLT (rows : List EventRecord) :
    (groupSizes rows).Pairwise fun a b => keyLT a.key b.key := by
  unfold groupSizes
  rw [List.pairwise_map]
  exact (sortedKeys_pairwise_keyLT (keyList rows)).imp fun h => h

theorem groupSizes_key_perm (rows : List EventRecord) :
    ((groupSizes rows).map EventTypeCount.key).Perm (keyList rows).dedup := by
  unfold groupSizes
  rw [List.map_map]
  have hfun : (EventTypeCount.key ∘ fun k : String × String =>
      ({ event_id := k.1, description := k.2, count := countKey (keyList rows) k } :
        EventTypeCount)) = id := funext fun k => rfl
  rw [hfun, List.map_id]
  exact List.perm_insertionSort keyLE _

theorem groupSizes_count (rows : List EventRecord) {e : EventTypeCount}
    (he : e ∈ groupSizes rows) : e.count = countKey (keyList rows) e.key := by
  unfold groupSizes at he
  rcases List.mem_map.mp he with ⟨k, _, rfl⟩
  rfl

theorem countsOf_toDataFrame {rows : List EventRecord} (h : rows ≠ []) :
    countsOf (toDataFrame rows) = .ok (sort_values_count_desc (groupSizes rows)) := by
  cases rows with
  | nil => exact absurd rfl h
  | cons r t => simp [countsOf, toDataFrame, recordColumns]

theorem interestingOf_toDataFrame {rows : List EventRecord} (h : rows ≠ []) :
    interestingOf (toDataFrame rows) = .ok (rows.filter suspMask) := by
  cases rows with
  | nil => exact absurd rfl h
  | cons r t => simp [interestingOf, toDataFrame, recordColumns]

/-! ## Overwrite-loop lemmas -/

theorem dataStep_mkData (acc : Option String × Option String × Option String)
    (p : Option String × Option String) :
    dataStep acc (mkData p) =
      (if p.1 = some "UtcTime" then p.2 else acc.1,
       if p.1 = some "Image" then p.2 else acc.2.1,
       if p.1 = some "ProcessId" then p.2 else acc.2.2) := by
  rcases p with ⟨n, t⟩
  cases n with
  | none => rfl
  | some s =>
    by_cases h1 : s = "UtcTime"
    · subst h1; rfl
    · by_cases h2 : s = "Image"
      · subst h2; rfl
      · by_cases h3 : s = "ProcessId"
        · subst h3; rfl
        · simp only [dataStep, mkData, attrGet]
          simp [h1, h2, h3, XmlElem.attrib, XmlElem.text]

theorem foldl_dataStep_mkData :
    ∀ (pairs : List (Option String × Option String))
      (acc : Option String × Option String × Option String),
      pairs.foldl (fun a p => dataStep a (mkData p)) acc =
        (lastNamedD "UtcTime" pairs acc.1, lastNamedD "Image" pairs acc.2.1,
         lastNamedD "ProcessId" pairs acc.2.2)
  | [], _ => rfl
  | p :: ps, acc => by
    rw [List.foldl_cons, foldl_dataStep_mkData ps, dataStep_mkData]
    rfl

theorem lastNamedD_eq_getLast (name : String) :
    ∀ (pairs : List (Option String × Option String)) (d : Option String),
      lastNamedD name pairs d =
        match (pairs.filter fun p => decide (p.1 = some name)).getLast? with
        | some q => q.2
        | none => d
  | [], _ => rfl
  | p :: ps, d => by
    rw [show lastNamedD name (p :: ps) d =
      lastNamedD name ps (if p.1 = some name then p.2 else d) from rfl]
    rw [lastNamedD_eq_getLast name ps]
    by_cases hp : p.1 = some name
    · simp only [List.filter_cons, hp, decide_eq_true_eq, if_pos]
      cases hfl : ps.filter fun q => decide (q.1 = some name) with
      | nil => simp [hfl, hp]
      | cons x xs =>
        simp only [hfl, List.getLast?_cons_cons]
        cases hgl : (x :: xs).getLast? with
        | none => simp at hgl
        | some q => rfl
    · simp [List.filter_cons, hp]

/-! ## Regex-search characterization -/

theorem charMatches_iff (p c : Char) :
    ((if p == '.' then c != '\n' else p == c) = true) ↔ charMatches p c := by
  by_cases hp : p = '.'
  · simp [charMatches, hp]
  · simp [charMatches, hp, beq_iff_eq]

theorem patMatchAt_iff : ∀ p s : List Char,
    patMatchAt p s = true ↔
      ∃ u v, s = u ++ v ∧ List.Forall₂ charMatches p u
  | [], s => ⟨fun _ => ⟨[], s, rfl, List.Forall₂.nil⟩, fun _ => rfl⟩
  | p :: ps, [] => by
    constructor
    · intro h
      exact absurd h (by simp [patMatchAt])
    · rintro ⟨u, v, huv, hf⟩
      rcases List.append_eq_nil.mp huv.symm with ⟨rfl, -⟩
      cases hf
  | p :: ps, c :: cs => by
    rw [show patMatchAt (p :: ps) (c :: cs) =
      ((if p == '.' then c != '\n' else p == c) && patMatchAt ps cs) from rfl]
    rw [Bool.and_eq_true, charMatches_iff, patMatchAt_iff ps cs]
    constructor
    · rintro ⟨hc, u, v, huv, hf⟩
      exact ⟨c :: u, v, by rw [List.cons_append, ← huv], List.Forall₂.cons hc hf⟩
    · rintro ⟨u, v, huv, hf⟩
      cases hf with
      | cons hc hf2 =>
        rw [List.cons_append] at huv
        injection huv with h1 h2
        subst h1
        exact ⟨hc, _, v, h2, hf2⟩

theorem patSearch_iff : ∀ p s : List Char,
    patSearch p s = true ↔ ∃ i, patMatchAt p (s.drop i) = true
  | p, [] => by
    constructor
    · intro h
      exact ⟨0, h⟩
    · rintro ⟨i, h⟩
      rw [List.drop_nil] at h
      exact h
  | p, c :: cs => by
    rw [show patSearch p (c :: cs) = (patMatchAt p (c :: cs) || patSearch p cs) from rfl]
    rw [Bool.or_eq_true, patSearch_iff p cs]
    constructor
    · rintro (h | ⟨i, h⟩)
      · exact ⟨0, h⟩
      · exact ⟨i + 1, h⟩
    · rintro ⟨i, h⟩
      cases i with
      | zero => exact Or.inl h
      | succ k => exact Or.inr ⟨k, h⟩

/-! ## Claim theorems -/

/-- C1: the specification claims that an input document with zero `Event` elements
yields an empty record set, an empty count table, an empty suspicious subset and a
header-only report.  The loader and the extraction comprehension do yield empty
results, but `pd.DataFrame([])` has no columns, so the very next pipeline step —
`df.groupby(["event_id", "description"])` — raises `KeyError: event_id` (and the
filter's `df["image"]` would likewise raise), so no report is produced at all. -/
theorem empty_input_crash :
    load_sysmon_events (.wellFormed emptyRoot) = .ok []
    ∧ parseAll [] = .ok []
    ∧ countsOf (toDataFrame []) = .error "KeyError: event_id"
    ∧ interestingOf (toDataFrame []) = .error "KeyError: image" :=
  ⟨by simp [load_sysmon_events, parseXmlFile, emptyRoot, descendants, descList],
   rfl, rfl, rfl⟩

/-- C2 (counterexample): for the one-record sequence whose `event_id` is absent,
`groupby` (with its default `dropna=True`) drops the record, the produced table is
empty, and the count sum is 0 while the input has 1 record — refuting the claim
that the sum always equals the total number of records. -/
theorem agg_sum_counterexample :
    countsOf (toDataFrame [noIdRecord]) = .ok ([] : List EventTypeCount)
    ∧ (([] : List EventTypeCount).map EventTypeCount.count).sum ≠ [noIdRecord].length :=
  ⟨rfl, by decide⟩

/-- C2 (amended): for every nonempty record sequence, the sum of the `count`
fields over the produced EventTypeCount entries equals the number of records whose
`event_id` is present (records with an absent `event_id` are dropped by the
grouping; the empty sequence raises `KeyError` instead, per C1). -/
theorem agg_sum_amended (rows : List EventRecord) (h : rows ≠ [])
    (cs : List EventTypeCount) (hc : countsOf (toDataFrame rows) = .ok cs) :
    (cs.map EventTypeCount.count).sum =
      (rows.filter fun r => r.event_id.isSome).length := by
  rw [countsOf_toDataFrame h] at hc
  injection hc with hcc
  subst hcc
  unfold sort_values_count_desc
  rw [List.map_reverse, List.sum_reverse]
  rw [((List.perm_insertionSort cntLE (groupSizes rows)).map EventTypeCount.count).sum_eq]
  unfold groupSizes
  rw [List.map_map]
  have hcomp : (EventTypeCount.count ∘ fun k : String × String =>
      ({ event_id := k.1, description := k.2, count := countKey (keyList rows) k } :
        EventTypeCount)) = countKey (keyList rows) := funext fun k => rfl
  rw [hcomp]
  rw [((List.perm_insertionSort keyLE (keyList rows).dedup).map
    (countKey (keyList rows))).sum_eq]
  rw [sum_countKey_dedup]
  exact keyList_length rows

/-- C2 (witness): the amended sum law evaluated on a two-record input, one record
with `event_id = "1"` and one with an absent `event_id`: the table sums to 1 and
exactly 1 record has a present id. -/
theorem agg_sum_amended_witness :
    (([⟨"1", "Process created (a program started)", 1⟩] :
        List EventTypeCount).map EventTypeCount.count).sum =
      ([sampleRecord, noIdRecord].filter fun r => r.event_id.isSome).length :=
  agg_sum_amended [sampleRecord, noIdRecord] (by simp) _ rfl

/-- C3: the specification claims field extraction never fails on missing optional
fields, including a present `System` child lacking an `EventID` (or `Computer`)
child.  The code guards only the absence of `System` itself: for an event whose
`System` exists without an `EventID` child, `system.find("ev:EventID", NS).text`
evaluates `.text` on `None` and raises `AttributeError`.  An event with no
`System` and no `EventData` at all does extract to an all-absent record. -/
theorem extraction_missing_eventid_crash :
    parse_event eventNoEventID =
      .error "AttributeError: NoneType object has no attribute text"
    ∧ parse_event eventBare = .ok noIdRecord :=
  ⟨rfl, rfl⟩

/-- C4 (counterexample): the claim says selection happens exactly on literal
substring containment.  `str.contains` defaults to `regex=True`, so the `.` in
`cmd.exe` matches any character: the record with image `C:\cmdXexe` is selected
by the code although its lower-cased image contains none of the six names as a
literal substring. -/
theorem suspicious_filter_counterexample :
    interestingOf (toDataFrame [cmdXRecord]) = .ok [cmdXRecord]
    ∧ literalSelected cmdXRecord = false :=
  ⟨rfl, rfl⟩

/-- C4 (amended): for every nonempty record sequence the filter keeps exactly the
rows passing the boolean mask, records with an absent image are excluded
unconditionally, and the selection is a sublist of the input (order preserved);
for every record whose image is ASCII text (where the modelled lower-casing
coincides exactly with Python's `str.lower()`), the record is selected iff some
suspicious name matches somewhere in the lower-cased image read as a regular
expression in which `.` matches any single character except newline (`re`'s
default dot) and every other character matches literally.  Literal containment
implies selection, but not conversely.  (The empty sequence instead raises
`KeyError`, per C1.) -/
theorem suspicious_filter_amended (rows : List EventRecord) (h : rows ≠ []) :
    interestingOf (toDataFrame rows) = .ok (rows.filter suspMask)
    ∧ (∀ r ∈ rows, r.image = none → suspMask r = false)
    ∧ List.Sublist (rows.filter suspMask) rows
    ∧ (∀ r ∈ rows, ∀ s, r.image = some s → asciiOnly s →
        (suspMask r = true ↔ ∃ p ∈ suspicious_images, ∃ i u v,
          (pyLower s).toList.drop i = u ++ v ∧ List.Forall₂ charMatches p.toList u)) := by
  refine ⟨interestingOf_toDataFrame h, ?_, List.filter_sublist _, ?_⟩
  · intro r _ hr
    simp [suspMask, hr]
  · intro r _ s hs _
    rw [show suspMask r = regexAnySearch suspicious_images (pyLower s) from by
      simp [suspMask, hs]]
    simp only [regexAnySearch, List.any_eq_true]
    constructor
    · rintro ⟨p, hp, hsearch⟩
      rcases (patSearch_iff _ _).mp hsearch with ⟨i, hmatch⟩
      rcases (patMatchAt_iff _ _).mp hmatch with ⟨u, v, huv, hf⟩
      exact ⟨p, hp, i, u, v, huv, hf⟩
    · rintro ⟨p, hp, i, u, v, huv, hf⟩
      exact ⟨p, hp, (patSearch_iff _ _).mpr ⟨i, (patMatchAt_iff _ _).mpr ⟨u, v, huv, hf⟩⟩⟩

/-- C4 (witness): the amended filter law evaluated on a two-record input: the
record with the ASCII image `C:\Windows\System32\cmd.exe` is kept (the theorem's
characterization produces a concrete regex match for it), the record with an
absent image is dropped. -/
theorem suspicious_filter_amended_witness :
    interestingOf (toDataFrame [sampleRecord, noIdRecord]) =
      .ok ([sampleRecord, noIdRecord].filter suspMask)
    ∧ [sampleRecord, noIdRecord].filter suspMask = [sampleRecord]
    ∧ (∃ p ∈ suspicious_images, ∃ i u v,
        (pyLower "C:\\Windows\\System32\\cmd.exe").toList.drop i = u ++ v ∧
          List.Forall₂ charMatches p.toList u) :=
  ⟨(suspicious_filter_amended [sampleRecord, noIdRecord] (by simp)).1,
   rfl,
   ((suspicious_filter_amended [sampleRecord, noIdRecord] (by simp)).2.2.2 sampleRecord
      (by simp) "C:\\Windows\\System32\\cmd.exe" rfl (by decide)).mp rfl⟩

/-- C5: description resolution is total: every pair of the table resolves to its
table entry, any string not among the table's keys resolves to the fallback
`Other Sysmon event`, the absent code resolves to the fallback, and the result
is never the empty string. -/
theorem description_resolution_total :
    (∀ x ∈ EVENT_DESCRIPTIONS, resolveDescription (some x.1) = x.2)
    ∧ (∀ c, c ∉ EVENT_DESCRIPTIONS.map Prod.fst →
        resolveDescription (some c) = "Other Sysmon event")
    ∧ resolveDescription none = "Other Sysmon event"
    ∧ (∀ code, resolveDescription code ≠ "") := by
  refine ⟨by decide, ?_, rfl, ?_⟩
  · intro c hc
    have hf : EVENT_DESCRIPTIONS.find? (fun p => p.1 == c) = none := by
      rw [List.find?_eq_none]
      intro x hx heq
      exact hc ((eq_of_beq heq) ▸ List.mem_map_of_mem Prod.fst hx)
    simp [resolveDescription, hf]
  · intro code
    cases code with
    | none => simp [resolveDescription]
    | some c =>
      simp only [resolveDescription]
      cases hf : EVENT_DESCRIPTIONS.find? (fun p => p.1 == c) with
      | none => simp
      | some p =>
        have hm := List.mem_of_find?_eq_some hf
        fin_cases hm <;> simp

/-- C5 (witness): the resolution law applied at the listed code `1`, the unlisted
code `999`, and the absent code. -/
theorem description_resolution_total_witness :
    resolveDescription (some "1") = "Process created (a program started)"
    ∧ resolveDescription (some "999") = "Other Sysmon event"
    ∧ resolveDescription none = "Other Sysmon event" :=
  ⟨description_resolution_total.1 ("1", "Process created (a program started)") (by decide),
   description_resolution_total.2.1 "999" (by decide),
   description_resolution_total.2.2.1⟩

/-- C6: the sentence renderer produces exactly the template
`At {utc_time}, on computer {computer}, {description}: {image} (process ID {process_id}).`
with every absent field rendered as the literal `None` (never as the empty
string), and it has no error condition (it is a total function). -/
theorem sentence_template_exact :
    (∀ row : EventRecord,
      to_sentence row =
        "At " ++ row.utc_time.getD "None" ++ ", on computer " ++
          row.computer.getD "None" ++ ", " ++ row.description ++ ": " ++
          row.image.getD "None" ++ " (process ID " ++ row.process_id.getD "None" ++ ").")
    ∧ pyStr none = "None" ∧ (∀ s, pyStr (some s) = s) ∧ pyStr none ≠ "" := by
  refine ⟨?_, rfl, fun s => rfl, by decide⟩
  intro row
  rcases row with ⟨ei, d, ut, im, pid, co⟩
  cases ut <;> cases im <;> cases pid <;> cases co <;> rfl

/-- C7: the round-trip scenario: the single-event document with `EventID=1`,
`Computer=HOST1`, `UtcTime=2024-01-01T00:00:00Z`,
`Image=C:\Windows\System32\cmd.exe`, `ProcessId=1234` loads to exactly that
event, extracts to the expected record, renders to exactly the specified
sentence, and the record is selected by the suspicious filter. -/
theorem roundtrip_scenario :
    load_sysmon_events (.wellFormed sampleRoot) = .ok [sampleEvent]
    ∧ parse_event sampleEvent = .ok sampleRecord
    ∧ to_sentence sampleRecord =
        "At 2024-01-01T00:00:00Z, on computer HOST1, Process created (a program started): C:\\Windows\\System32\\cmd.exe (process ID 1234)."
    ∧ interestingOf (toDataFrame [sampleRecord]) = .ok [sampleRecord] := by
  refine ⟨?_, rfl, rfl, rfl⟩
  simp [load_sysmon_events, parseXmlFile, sampleRoot, descendants, descList, sampleEvent,
    sampleSystem, sampleData, qn, sysmonNS, XmlElem.tag, List.filter]

/-- C8 (counterexample): the claim says equal-count entries appear in the original
grouping order (stable sort).  For two records with ids `1` and `3` (one each),
the grouping order is the ascending key order — `1` before `3` — but the produced
table lists the `3` entry first: `sort_values(ascending=False)` reverses the
ascending argsort, which on a two-row table (where numpy's sort is a stable
insertion sort) puts ties in exactly the reverse grouping order. -/
theorem agg_order_counterexample :
    countsOf (toDataFrame [tieRecord1, tieRecord3]) =
      .ok [⟨"3", "Network connection created", 1⟩,
           ⟨"1", "Process created (a program started)", 1⟩]
    ∧ keyLT ("1", "Process created (a program started)")
        ("3", "Network connection created")
    ∧ ([⟨"3", "Network connection created", 1⟩,
        ⟨"1", "Process created (a program started)", 1⟩] : List EventTypeCount) ≠
      [⟨"1", "Process created (a program started)", 1⟩,
       ⟨"3", "Network connection created", 1⟩] :=
  ⟨rfl, by decide, by decide⟩

/-- C8 (amended): for every nonempty record sequence the produced table has one
entry per distinct (event_id, description) pair with a present `event_id` (the
entry keys are a permutation of the deduplicated present keys), each entry's
count is the number of occurrences of its key, and the table is sorted
non-increasing in count.  The order among entries with equal counts is NOT the
claimed original grouping order — the counterexample exhibits its exact reverse
on a small table — and is not guaranteed by the program in general, since the
default `sort_values` kind is an unstable sort whose descending order is a
reversed ascending argsort; the theorem therefore asserts no universal tie
order. -/
theorem agg_table_amended (rows : List EventRecord) (h : rows ≠ [])
    (cs : List EventTypeCount) (hc : countsOf (toDataFrame rows) = .ok cs) :
    (cs.map EventTypeCount.key).Perm (keyList rows).dedup
    ∧ (∀ e ∈ cs, e.count = countKey (keyList rows) e.key)
    ∧ cs.Pairwise fun a b => b.count ≤ a.count := by
  rw [countsOf_toDataFrame h] at hc
  injection hc with hcc
  subst hcc
  refine ⟨?_, ?_, ?_⟩
  · unfold sort_values_count_desc
    rw [List.map_reverse]
    exact (List.reverse_perm _).trans
      (((List.perm_insertionSort cntLE _).map _).trans (groupSizes_key_perm rows))
  · intro e he
    unfold sort_values_count_desc at he
    rw [List.mem_reverse] at he
    exact groupSizes_count rows ((List.mem_insertionSort cntLE).mp he)
  · unfold sort_values_count_desc
    rw [List.pairwise_reverse]
    exact (List.sorted_insertionSort cntLE _).imp fun hab => hab

/-- C8 (witness): the amended table law evaluated on the two-record tie input of
the counterexample. -/
theorem agg_table_amended_witness :
    (([⟨"3", "Network connection created", 1⟩,
       ⟨"1", "Process created (a program started)", 1⟩] :
        List EventTypeCount).map EventTypeCount.key).Perm
      (keyList [tieRecord1, tieRecord3]).dedup
    ∧ (∀ e ∈ ([⟨"3", "Network connection created", 1⟩,
        ⟨"1", "Process created (a program started)", 1⟩] : List EventTypeCount),
        e.count = countKey (keyList [tieRecord1, tieRecord3]) e.key)
    ∧ ([⟨"3", "Network connection created", 1⟩,
        ⟨"1", "Process created (a program started)", 1⟩] :
        List EventTypeCount).Pairwise fun a b => b.count ≤ a.count :=
  agg_table_amended [tieRecord1, tieRecord3] (by simp) _ rfl

/-- C9 (counterexample): the claim says the loader returns every namespaced
`Event` element found anywhere in the document.  `findall(".//ev:Event", NS)`
selects subelements only: for a document whose root element is itself a
namespaced `Event`, the loader returns the empty sequence, omitting the root. -/
theorem loader_root_counterexample :
    bareEventRoot.tag = qn "Event"
    ∧ load_sysmon_events (.wellFormed bareEventRoot) = .ok []
    ∧ ([] : List XmlElem) ≠ [bareEventRoot] := by
  refine ⟨rfl, ?_, by simp⟩
  simp [load_sysmon_events, parseXmlFile, bareEventRoot, descendants, descList]

/-- C9 (amended): the loader fails with `NotFoundError` when the path does not
exist and with `MalformedInputError` when the file is not well-formed XML; on a
well-formed document it returns exactly the proper descendants of the root (the
root element itself is never included) whose qualified tag is the namespaced
`Event` tag, as a sublist of the preorder (document-order) traversal. -/
theorem loader_amended :
    load_sysmon_events .missing = .error .NotFoundError
    ∧ load_sysmon_events .malformed = .error .MalformedInputError
    ∧ ∀ root : XmlElem,
        load_sysmon_events (.wellFormed root) =
          .ok ((descendants root).filter fun e => e.tag == qn "Event")
        ∧ List.Sublist ((descendants root).filter fun e => e.tag == qn "Event")
            (descendants root)
        ∧ ∀ e : XmlElem,
            (e ∈ (descendants root).filter fun x => x.tag == qn "Event") ↔
              (e ∈ descendants root ∧ e.tag = qn "Event") :=
  ⟨rfl, rfl, fun root =>
    ⟨rfl, List.filter_sublist _, fun e => by simp [List.mem_filter]⟩⟩

/-- C10: for an event whose `EventData` holds arbitrary `Data` children given as
`(Name attribute, text)` pairs, extraction captures for each of `UtcTime`,
`Image`, `ProcessId` the text of the last child (in document order) whose `Name`
matches — later occurrences overwrite earlier ones — and a matching child with
no text leaves the field absent. -/
theorem eventdata_last_occurrence_wins (pairs : List (Option String × Option String)) :
    parse_event (eventWithData pairs) = .ok
      { event_id := none
        description := "Other Sysmon event"
        utc_time := lastNamed "UtcTime" pairs
        image := lastNamed "Image" pairs
        process_id := lastNamed "ProcessId" pairs
        computer := none } := by
  have hfilter : ((pairs.map mkData).filter fun c => c.tag == qn "Data") =
      pairs.map mkData := by
    rw [List.filter_map]
    have hfun : ((fun c : XmlElem => c.tag == qn "Data") ∘ mkData) = fun _ => true := by
      funext p
      rcases p with ⟨n, t⟩
      cases n <;> simp [mkData, XmlElem.tag]
    rw [hfun]
    simp
  have key : parse_event (eventWithData pairs) = .ok
      { event_id := none
        description := "Other Sysmon event"
        utc_time := (((pairs.map mkData).filter fun c => c.tag == qn "Data").foldl
          dataStep (none, none, none)).1
        image := (((pairs.map mkData).filter fun c => c.tag == qn "Data").foldl
          dataStep (none, none, none)).2.1
        process_id := (((pairs.map mkData).filter fun c => c.tag == qn "Data").foldl
          dataStep (none, none, none)).2.2
        computer := none } := rfl
  rw [key, hfilter, List.foldl_map, foldl_dataStep_mkData]
  rw [lastNamedD_eq_getLast, lastNamedD_eq_getLast, lastNamedD_eq_getLast]
  rfl

/-- C6 (witness): the template law evaluated on the all-absent record: every
missing field renders as the literal `None`. -/
theorem sentence_template_exact_witness :
    to_sentence noIdRecord =
      "At None, on computer None, Other Sysmon event: None (process ID None)." :=
  (sentence_template_exact.1 noIdRecord).trans rfl

/-- C9 (witness): the amended loader law evaluated on the sample document: the
single `Event` descendant is returned. -/
theorem loader_amended_witness :
    load_sysmon_events (.wellFormed sampleRoot) =
      .ok ((descendants sampleRoot).filter fun e => e.tag == qn "Event") :=
  (loader_amended.2.2 sampleRoot).1

/-- C10 (witness): two `UtcTime` children where the later one has no text, plus an
`Image` child: the extracted `utc_time` is absent (the last occurrence overwrote
the earlier text) and the image is the `Image` child's text. -/
theorem eventdata_last_occurrence_wins_witness :
    parse_event (eventWithData
      [(some "UtcTime", some "2024-01-01T00:00:00Z"), (some "UtcTime", none),
       (some "Image", some "C:\\a.exe")]) = .ok
      { event_id := none
        description := "Other Sysmon event"
        utc_time := none
        image := some "C:\\a.exe"
        process_id := none
        computer := none } :=
  eventdata_last_occurrence_wins
    [(some "UtcTime", some "2024-01-01T00:00:00Z"), (some "UtcTime", none),
     (some "Image", some "C:\\a.exe")]
